import Mathlib

/-!
Shallow embedding of `src/main.ts`, the `LocalHighlightRegistry` class:
a local ledger (`Map<string, Set<Range>>`) layered over the shared global
`CSS.highlights` store (`Map<string, Highlight>`).

Modelling choices:
* A `Range` (span) is an opaque reference-identity object; we model it as `Nat`.
* A JS `Map` is modelled as an association list with distinct keys, in
  insertion order: `get` reads the first (only) matching entry, `set`
  replaces the entry in place or appends a fresh one at the end, `delete`
  removes the entry.
* A JS `Set` is modelled as a duplicate-free list in insertion order:
  `add` appends when absent, `delete` filters the element out, iteration
  (in `deleteAll`) follows the list order.
* `console.warn` calls are modelled as `Diagnostic` values collected in the
  result, so diagnostics are observable outcomes.
* `throw new Error(...)` in `add` is modelled with `Except`: the error value
  carries the message together with the registry and store state at the
  moment of the throw (in JS the mutations performed before the `throw`
  persist, so the error state matters).
-/

/-- The shared global `Highlight` object for a name: a `priority` number and
the set of ranges it contains (a JS `Highlight` is set-like). -/
structure Highlight where
  priority : Int
  ranges : List Nat
deriving Repr, DecidableEq

/-- The shared global `CSS.highlights` store: a map from highlight name to
`Highlight`, modelled as an insertion-ordered association list. -/
abbrev GlobalStore := List (String × Highlight)

/-- The `LocalHighlightRegistry` instance state: its private field
`#ranges : Map<string, Set<Range>>`, the local ledger. -/
structure LocalHighlightRegistry where
  ranges : List (String × List Nat)
deriving Repr, DecidableEq

/-- `Map.prototype.get`: first entry with the given key, if any. -/
def mapGet {β : Type} (k : String) : List (String × β) → Option β
  | [] => none
  | p :: rest => if p.1 = k then some p.2 else mapGet k rest

/-- `Map.prototype.set`: replace the entry with the given key in place, or
append a fresh entry at the end when the key is absent. -/
def mapSet {β : Type} (k : String) (v : β) : List (String × β) → List (String × β)
  | [] => [(k, v)]
  | p :: rest => if p.1 = k then (k, v) :: rest else p :: mapSet k v rest

/-- `Map.prototype.delete`: remove the entry with the given key. -/
def mapDelete {β : Type} (k : String) : List (String × β) → List (String × β)
  | [] => []
  | p :: rest => if p.1 = k then rest else p :: mapDelete k rest

/-- `Set.prototype.add` / `Highlight.prototype.add`: append when absent. -/
def setAdd (s : List Nat) (x : Nat) : List Nat :=
  if x ∈ s then s else s ++ [x]

/-- `Set.prototype.delete` / `Highlight.prototype.delete`: remove the
element (on a duplicate-free list, filtering it out). -/
def setDelete (s : List Nat) (x : Nat) : List Nat :=
  s.filter (fun y => decide (y ≠ x))

/-- A `console.warn` diagnostic emitted by an operation. -/
inductive Diagnostic where
  | priorityMismatch (name : String) (existing requested : Int)
  | alreadyDeleted
  | someAlreadyDeleted (name : String)
deriving Repr, DecidableEq

/-- Normal result of `add`: the returned boolean, the updated registry and
store, and the diagnostics emitted during the call. -/
structure AddOk where
  result : Bool
  reg : LocalHighlightRegistry
  store : GlobalStore
  warnings : List Diagnostic
deriving Repr, DecidableEq

/-- Error result of `add` (`throw new Error(...)`): the message and the
registry and store state at the moment of the throw. -/
structure AddError where
  message : String
  reg : LocalHighlightRegistry
  store : GlobalStore
deriving Repr, DecidableEq

/-- Result of `delete` / `deleteAll`: the returned boolean, the updated
registry and store, and the diagnostics emitted during the call. -/
structure OpResult where
  result : Bool
  reg : LocalHighlightRegistry
  store : GlobalStore
  warnings : List Diagnostic
deriving Repr, DecidableEq

/-- Result of `clear` (which returns `void`). -/
structure ClearResult where
  reg : LocalHighlightRegistry
  store : GlobalStore
  warnings : List Diagnostic
deriving Repr, DecidableEq

deriving instance DecidableEq for Except

/-- The message of the fatal ownership-collision error thrown by `add`. -/
def addErrorMessage : String :=
  "This range has been already registered as an highlight elsewhere."

namespace LocalHighlightRegistry

/-- The shared-store part of `add`, from the point where the local set for
`name` is known (`set` is that set; `reg` already holds it in the ledger,
freshly created and empty when the name was new). Mirrors lines 118-139 of
`src/main.ts`: look up `CSS.highlights.get(name)`; if absent, `set` a fresh
`Highlight` with the requested priority; if present and it already has the
range, throw; if present with a different priority, warn; finally add the
range to both the local set and the global highlight and return `true`. -/
def addShared (reg : LocalHighlightRegistry) (set : List Nat) (name : String)
    (range : Nat) (priority : Int) (store : GlobalStore) : Except AddError AddOk :=
  match mapGet name store with
  | none =>
      let gh : Highlight := ⟨priority, []⟩
      .ok ⟨true, ⟨mapSet name (setAdd set range) reg.ranges⟩,
           mapSet name ⟨gh.priority, setAdd gh.ranges range⟩ (mapSet name gh store), []⟩
  | some gh =>
      if range ∈ gh.ranges then
        .error ⟨addErrorMessage, reg, store⟩
      else
        .ok ⟨true, ⟨mapSet name (setAdd set range) reg.ranges⟩,
             mapSet name ⟨gh.priority, setAdd gh.ranges range⟩ store,
             if gh.priority ≠ priority then [.priorityMismatch name gh.priority priority] else []⟩

/-- `add(name, range, priority)`, lines 110-140 of `src/main.ts`. Looks up
the local set for `name`; when present and already containing `range`,
returns `false`; when absent, installs a fresh empty set in the ledger
before the shared-store part runs (so the empty set persists if the
shared-store part throws). -/
def add (reg : LocalHighlightRegistry) (store : GlobalStore) (name : String)
    (range : Nat) (priority : Int) : Except AddError AddOk :=
  match mapGet name reg.ranges with
  | some set =>
      if range ∈ set then
        .ok ⟨false, reg, store, []⟩
      else
        addShared reg set name range priority store
  | none =>
      addShared ⟨mapSet name [] reg.ranges⟩ [] name range priority store

/-- `has(name, range)`, lines 151-155 of `src/main.ts`: a pure local lookup,
never consulting the shared store. -/
def has (reg : LocalHighlightRegistry) (name : String) (range : Nat) : Bool :=
  match mapGet name reg.ranges with
  | none => false
  | some set => decide (range ∈ set)

/-- `delete(name, range)`, lines 166-182 of `src/main.ts`: return `false`
when this instance does not own the range; otherwise remove it from the
local set (pruning the name key when the set becomes empty), then try to
remove it from the shared highlight, warning when the highlight is missing
or does not contain the range; return `true`. -/
def delete (reg : LocalHighlightRegistry) (store : GlobalStore) (name : String)
    (range : Nat) : OpResult :=
  match mapGet name reg.ranges with
  | none => ⟨false, reg, store, []⟩
  | some set =>
      if range ∈ set then
        let set' := setDelete set range
        let ranges' := if set'.length = 0 then mapDelete name reg.ranges
                       else mapSet name set' reg.ranges
        match mapGet name store with
        | none => ⟨true, ⟨ranges'⟩, store, [.alreadyDeleted]⟩
        | some gh =>
            if range ∈ gh.ranges then
              ⟨true, ⟨ranges'⟩, mapSet name ⟨gh.priority, setDelete gh.ranges range⟩ store, []⟩
            else
              ⟨true, ⟨ranges'⟩, store, [.alreadyDeleted]⟩
      else ⟨false, reg, store, []⟩

/-- The loop body of `deleteAll` (lines 199-201 of `src/main.ts`):
`for (const range of set) warn = !globalHighlight.delete(range);` — each
iteration overwrites `warn` with whether that range was absent from the
global highlight, and removes it. Returns the final highlight and the final
value of `warn`. -/
def deleteAllLoop : List Nat → Highlight → Bool → Highlight × Bool
  | [], gh, warn => (gh, warn)
  | r :: rest, gh, _ =>
      deleteAllLoop rest ⟨gh.priority, setDelete gh.ranges r⟩ (!decide (r ∈ gh.ranges))

/-- `deleteAll(name)`, lines 190-212 of `src/main.ts`: return `false` when
the ledger has no set for `name`; otherwise walk the owned set removing each
range from the global highlight (the `warn` accumulator being overwritten at
each step), warn once at the end when `warn` ended up `true` (or when the
global highlight was missing entirely), unconditionally drop the ledger
entry, and return `true`. -/
def deleteAll (reg : LocalHighlightRegistry) (store : GlobalStore) (name : String) : OpResult :=
  match mapGet name reg.ranges with
  | none => ⟨false, reg, store, []⟩
  | some set =>
      match mapGet name store with
      | none =>
          ⟨true, ⟨mapDelete name reg.ranges⟩, store, [.someAlreadyDeleted name]⟩
      | some gh =>
          let r := deleteAllLoop set gh false
          ⟨true, ⟨mapDelete name reg.ranges⟩, mapSet name r.1 store,
           if r.2 then [.someAlreadyDeleted name] else []⟩

/-- The loop of `clear` (line 218 of `src/main.ts`): fold `deleteAll` over a
list of names, threading registry, store and diagnostics. -/
def clearLoop : List String → LocalHighlightRegistry → GlobalStore → List Diagnostic → ClearResult
  | [], reg, store, ws => ⟨reg, store, ws⟩
  | n :: rest, reg, store, ws =>
      let r := deleteAll reg store n
      clearLoop rest r.reg r.store (ws ++ r.warnings)

/-- `clear()`, lines 217-219 of `src/main.ts`:
`for (const name of this.#ranges.keys()) this.deleteAll(name);`.
Each `deleteAll` removes exactly the key being visited, and a JS `Map`
iterator still yields every other key after the current entry is deleted, so
the live iteration is equivalent to folding over the snapshot of the key
list taken at the start, which is how we model it. -/
def clear (reg : LocalHighlightRegistry) (store : GlobalStore) : ClearResult :=
  clearLoop (reg.ranges.map Prod.fst) reg store []

end LocalHighlightRegistry

/-- The local-ledger invariant from the spec: a name key exists in the
ledger iff its set of spans is non-empty, i.e. no entry maps to the empty
set. -/
def LedgerInv (reg : LocalHighlightRegistry) : Prop :=
  ∀ p ∈ reg.ranges, p.2 ≠ ([] : List Nat)

/-- Well-formedness of the association-list representation of a JS `Map`:
keys are pairwise distinct. -/
def KeysNodup (reg : LocalHighlightRegistry) : Prop :=
  (reg.ranges.map Prod.fst).Nodup

/-- Observation on the shared store: the collection for `name` exists and
contains `span` (the composite `CSS.highlights.get(name)?.has(span)`). -/
def storeHasSpan (store : GlobalStore) (name : String) (span : Nat) : Bool :=
  match mapGet name store with
  | none => false
  | some gh => decide (span ∈ gh.ranges)

theorem mapGet_mapSet_self {β : Type} (k : String) (v : β) (l : List (String × β)) :
    mapGet k (mapSet k v l) = some v := by
  induction l with
  | nil => simp [mapGet, mapSet]
  | cons p rest ih =>
      by_cases h : p.1 = k
      · simp [mapGet, mapSet, h]
      · simp [mapGet, mapSet, h, ih]

theorem mapSet_mapSet {β : Type} (k : String) (v w : β) (l : List (String × β)) :
    mapSet k v (mapSet k w l) = mapSet k v l := by
  induction l with
  | nil => simp [mapSet]
  | cons p rest ih =>
      by_cases h : p.1 = k
      · simp [mapSet, h]
      · simp [mapSet, h, ih]

theorem mem_mapSet {β : Type} {k : String} {v : β} {l : List (String × β)}
    {p : String × β} (hp : p ∈ mapSet k v l) : p = (k, v) ∨ p ∈ l := by
  induction l with
  | nil => simpa [mapSet] using hp
  | cons q rest ih =>
      by_cases h : q.1 = k
      · simp only [mapSet, h, if_pos] at hp
        rcases List.mem_cons.mp hp with h1 | h1
        · exact Or.inl h1
        · exact Or.inr (List.mem_cons_of_mem _ h1)
      · simp only [mapSet, h, if_neg, not_false_iff] at hp
        rcases List.mem_cons.mp hp with h1 | h1
        · exact Or.inr (h1 ▸ List.mem_cons_self _ _)
        · rcases ih h1 with h2 | h2
          · exact Or.inl h2
          · exact Or.inr (List.mem_cons_of_mem _ h2)

theorem mem_mapDelete {β : Type} {k : String} {l : List (String × β)}
    {p : String × β} (hp : p ∈ mapDelete k l) : p ∈ l := by
  induction l with
  | nil => simp [mapDelete] at hp
  | cons q rest ih =>
      by_cases h : q.1 = k
      · simp only [mapDelete, h, if_pos] at hp
        exact List.mem_cons_of_mem _ hp
      · simp only [mapDelete, h, if_neg, not_false_iff] at hp
        rcases List.mem_cons.mp hp with h1 | h1
        · exact h1 ▸ List.mem_cons_self _ _
        · exact List.mem_cons_of_mem _ (ih h1)

theorem mapGet_isSome_of_mem {β : Type} {l : List (String × β)} {p : String × β}
    (hp : p ∈ l) : (mapGet p.1 l).isSome := by
  induction l with
  | nil => simp at hp
  | cons q rest ih =>
      by_cases h : q.1 = p.1
      · simp [mapGet, h]
      · rcases List.mem_cons.mp hp with h1 | h1
        · exact absurd (h1 ▸ rfl) h
        · simp [mapGet, h, ih h1]

theorem mapGet_eq_none_iff {β : Type} (k : String) (l : List (String × β)) :
    mapGet k l = none ↔ k ∉ l.map Prod.fst := by
  induction l with
  | nil => simp [mapGet]
  | cons q rest ih =>
      by_cases h : q.1 = k
      · simp [mapGet, h]
      · simp [mapGet, h, ih, Ne.symm h]

theorem keys_mapDelete_sublist {β : Type} (k : String) (l : List (String × β)) :
    List.Sublist ((mapDelete k l).map Prod.fst) (l.map Prod.fst) := by
  induction l with
  | nil => simp [mapDelete]
  | cons q rest ih =>
      by_cases h : q.1 = k
      · simp only [mapDelete, h, if_pos, List.map_cons]
        exact (List.sublist_cons_self _ _)
      · simp only [mapDelete, h, if_neg, not_false_iff, List.map_cons]
        exact ih.cons₂ _

theorem mapGet_mapDelete_self {β : Type} {k : String} {l : List (String × β)}
    (hnd : (l.map Prod.fst).Nodup) : mapGet k (mapDelete k l) = none := by
  induction l with
  | nil => simp [mapGet, mapDelete]
  | cons q rest ih =>
      simp only [List.map_cons, List.nodup_cons] at hnd
      by_cases h : q.1 = k
      · simp only [mapDelete, h, if_pos]
        rw [mapGet_eq_none_iff]
        exact h ▸ hnd.1
      · simp [mapGet, mapDelete, h, ih hnd.2]

theorem fst_ne_of_mem_mapDelete {β : Type} {k : String} {l : List (String × β)}
    {p : String × β} (hnd : (l.map Prod.fst).Nodup) (hp : p ∈ mapDelete k l) :
    p.1 ≠ k := by
  induction l with
  | nil => simp [mapDelete] at hp
  | cons q rest ih =>
      simp only [List.map_cons, List.nodup_cons] at hnd
      by_cases h : q.1 = k
      · simp only [mapDelete, h, if_pos] at hp
        intro hk
        exact (h ▸ hnd.1) (hk ▸ List.mem_map_of_mem Prod.fst hp)
      · simp only [mapDelete, h, if_neg, not_false_iff] at hp
        rcases List.mem_cons.mp hp with h1 | h1
        · exact h1 ▸ h
        · exact ih hnd.2 h1

theorem mapSet_append_of_none {β : Type} {k : String} (v : β) {l : List (String × β)}
    (h : mapGet k l = none) : mapSet k v l = l ++ [(k, v)] := by
  induction l with
  | nil => simp [mapSet]
  | cons q rest ih =>
      by_cases hq : q.1 = k
      · simp [mapGet, hq] at h
      · simp only [mapGet, hq, if_neg, not_false_iff] at h
        simp [mapSet, hq, ih h]

theorem setAdd_ne_nil (s : List Nat) (x : Nat) : setAdd s x ≠ [] := by
  unfold setAdd
  by_cases h : x ∈ s
  · simp only [h, if_pos]
    intro hs
    exact (List.not_mem_nil x) (hs ▸ h)
  · simp [h]

theorem mem_setAdd_self (s : List Nat) (x : Nat) : x ∈ setAdd s x := by
  unfold setAdd
  by_cases h : x ∈ s <;> simp [h]

theorem not_mem_setDelete_self (s : List Nat) (x : Nat) : x ∉ setDelete s x := by
  unfold setDelete
  intro h
  have := List.of_mem_filter h
  simp at this

theorem count_setAdd_of_not_mem {s : List Nat} {x : Nat} (h : x ∉ s) :
    (setAdd s x).count x = 1 := by
  unfold setAdd
  simp [h, List.count_append, List.count_eq_zero_of_not_mem h]

theorem mapDelete_eq_of_none {β : Type} {k : String} {l : List (String × β)}
    (h : mapGet k l = none) : mapDelete k l = l := by
  induction l with
  | nil => simp [mapDelete]
  | cons q rest ih =>
      by_cases hq : q.1 = k
      · simp [mapGet, hq] at h
      · simp only [mapGet, hq, if_neg, not_false_iff] at h
        simp [mapDelete, hq, ih h]

theorem ledgerInv_mapSet {l : List (String × List Nat)} {k : String} {v : List Nat}
    (hinv : ∀ p ∈ l, p.2 ≠ ([] : List Nat)) (hv : v ≠ []) :
    ∀ p ∈ mapSet k v l, p.2 ≠ ([] : List Nat) := by
  intro p hp
  rcases mem_mapSet hp with h | h
  · simpa [h] using hv
  · exact hinv p h

theorem ledgerInv_mapDelete {l : List (String × List Nat)} {k : String}
    (hinv : ∀ p ∈ l, p.2 ≠ ([] : List Nat)) :
    ∀ p ∈ mapDelete k l, p.2 ≠ ([] : List Nat) :=
  fun p hp => hinv p (mem_mapDelete hp)

namespace LocalHighlightRegistry

theorem deleteAll_reg (reg : LocalHighlightRegistry) (store : GlobalStore) (name : String) :
    (deleteAll reg store name).reg.ranges = mapDelete name reg.ranges := by
  unfold deleteAll
  cases hg : mapGet name reg.ranges with
  | none => simp [mapDelete_eq_of_none hg]
  | some set => cases hm : mapGet name store <;> simp

theorem deleteAll_result (reg : LocalHighlightRegistry) (store : GlobalStore) (name : String) :
    (deleteAll reg store name).result = (mapGet name reg.ranges).isSome := by
  unfold deleteAll
  cases hg : mapGet name reg.ranges with
  | none => simp
  | some set => cases hm : mapGet name store <;> simp

theorem deleteAll_inv {reg : LocalHighlightRegistry} (store : GlobalStore) (name : String)
    (hinv : LedgerInv reg) : LedgerInv (deleteAll reg store name).reg := by
  intro p hp
  rw [deleteAll_reg] at hp
  exact ledgerInv_mapDelete hinv p hp

theorem deleteAll_keysNodup {reg : LocalHighlightRegistry} (store : GlobalStore) (name : String)
    (hnd : KeysNodup reg) : KeysNodup (deleteAll reg store name).reg := by
  unfold KeysNodup
  rw [deleteAll_reg]
  exact (keys_mapDelete_sublist name reg.ranges).nodup hnd

theorem clearLoop_inv (names : List String) :
    ∀ (reg : LocalHighlightRegistry) (store : GlobalStore) (ws : List Diagnostic),
      LedgerInv reg → LedgerInv (clearLoop names reg store ws).reg := by
  induction names with
  | nil => intro reg store ws hinv; simpa [clearLoop] using hinv
  | cons n rest ih =>
      intro reg store ws hinv
      simp only [clearLoop]
      exact ih _ _ _ (deleteAll_inv store n hinv)

theorem clearLoop_reg_empty (names : List String) :
    ∀ (reg : LocalHighlightRegistry) (store : GlobalStore) (ws : List Diagnostic),
      KeysNodup reg → (∀ p ∈ reg.ranges, p.1 ∈ names) →
      (clearLoop names reg store ws).reg.ranges = [] := by
  induction names with
  | nil =>
      intro reg store ws _ hcov
      cases hr : reg.ranges with
      | nil => simpa [clearLoop] using hr
      | cons p rest =>
          exact absurd (hcov p (hr ▸ List.mem_cons_self p rest)) (List.not_mem_nil p.1)
  | cons n rest ih =>
      intro reg store ws hnd hcov
      simp only [clearLoop]
      refine ih _ _ _ (deleteAll_keysNodup store n hnd) ?_
      intro p hp
      rw [deleteAll_reg] at hp
      have h1 : p ∈ reg.ranges := mem_mapDelete hp
      have h2 : p.1 ≠ n := fst_ne_of_mem_mapDelete hnd hp
      rcases List.mem_cons.mp (hcov p h1) with h3 | h3
      · exact absurd h3 h2
      · exact h3

theorem addShared_ok_state {reg : LocalHighlightRegistry} {set : List Nat} {name : String}
    {range : Nat} {priority : Int} {store : GlobalStore} {res : AddOk}
    (h : addShared reg set name range priority store = .ok res) :
    res.result = true ∧ res.reg.ranges = mapSet name (setAdd set range) reg.ranges := by
  unfold addShared at h
  cases hm : mapGet name store with
  | none =>
      rw [hm] at h
      simp only [Except.ok.injEq] at h
      subst h
      exact ⟨rfl, rfl⟩
  | some gh =>
      rw [hm] at h
      by_cases hr : range ∈ gh.ranges
      · simp [hr] at h
      · simp only [hr, if_neg, not_false_iff, Except.ok.injEq] at h
        subst h
        exact ⟨rfl, rfl⟩

theorem addShared_error_state {reg : LocalHighlightRegistry} {set : List Nat} {name : String}
    {range : Nat} {priority : Int} {store : GlobalStore} {e : AddError}
    (h : addShared reg set name range priority store = .error e) :
    e = ⟨addErrorMessage, reg, store⟩ := by
  unfold addShared at h
  cases hm : mapGet name store with
  | none => rw [hm] at h; simp at h
  | some gh =>
      rw [hm] at h
      by_cases hr : range ∈ gh.ranges
      · simp only [hr, if_pos, Except.error.injEq] at h
        exact h.symm
      · simp [hr] at h

theorem addShared_error_iff {reg : LocalHighlightRegistry} {set : List Nat} {name : String}
    {range : Nat} {priority : Int} {store : GlobalStore} :
    (∃ e, addShared reg set name range priority store = .error e) ↔
      storeHasSpan store name range = true := by
  unfold addShared storeHasSpan
  cases hm : mapGet name store with
  | none => simp
  | some gh =>
      by_cases hr : range ∈ gh.ranges
      · simp [hr]
      · simp [hr]

theorem add_ok_cases {reg : LocalHighlightRegistry} {store : GlobalStore} {name : String}
    {range : Nat} {priority : Int} {res : AddOk}
    (h : add reg store name range priority = .ok res) :
    (reg.has name range = true ∧ res = ⟨false, reg, store, []⟩) ∨
    (reg.has name range = false ∧ res.result = true ∧
      ∃ set, range ∉ set ∧
        res.reg.ranges = mapSet name (setAdd set range) reg.ranges ∧
        (mapGet name reg.ranges = some set ∨ (mapGet name reg.ranges = none ∧ set = []))) := by
  unfold add at h
  cases hg : mapGet name reg.ranges with
  | some set =>
      rw [hg] at h
      by_cases hr : range ∈ set
      · simp only [hr, if_pos, Except.ok.injEq] at h
        exact Or.inl ⟨by simp [has, hg, hr], h.symm⟩
      · simp only [hr, if_neg, not_false_iff] at h
        obtain ⟨h1, h2⟩ := addShared_ok_state h
        exact Or.inr ⟨by simp [has, hg, hr], h1, set, hr, h2, Or.inl rfl⟩
  | none =>
      rw [hg] at h
      obtain ⟨h1, h2⟩ := addShared_ok_state h
      rw [mapSet_mapSet] at h2
      exact Or.inr ⟨by simp [has, hg], h1, [], List.not_mem_nil range, h2,
        Or.inr ⟨rfl, rfl⟩⟩

theorem add_error_cases {reg : LocalHighlightRegistry} {store : GlobalStore} {name : String}
    {range : Nat} {priority : Int} {e : AddError}
    (h : add reg store name range priority = .error e) :
    e.message = addErrorMessage ∧ e.store = store ∧
    ((mapGet name reg.ranges).isSome → e.reg = reg) ∧
    (mapGet name reg.ranges = none → e.reg.ranges = mapSet name [] reg.ranges) := by
  unfold add at h
  cases hg : mapGet name reg.ranges with
  | some set =>
      rw [hg] at h
      by_cases hr : range ∈ set
      · simp [hr] at h
      · simp only [hr, if_neg, not_false_iff] at h
        have := addShared_error_state h
        subst this
        exact ⟨rfl, rfl, fun _ => rfl, fun hn => by simp [hg] at hn⟩
  | none =>
      rw [hg] at h
      have := addShared_error_state h
      subst this
      exact ⟨rfl, rfl, fun hs => by simp at hs, fun _ => rfl⟩

theorem add_error_iff (reg : LocalHighlightRegistry) (store : GlobalStore) (name : String)
    (range : Nat) (priority : Int) :
    (∃ e, add reg store name range priority = .error e) ↔
      reg.has name range = false ∧ storeHasSpan store name range = true := by
  unfold add
  cases hg : mapGet name reg.ranges with
  | some set =>
      by_cases hr : range ∈ set
      · simp [hr, has, hg]
      · simp [hr, has, hg, addShared_error_iff]
  | none =>
      simp [has, hg, addShared_error_iff]

theorem mem_of_mapGet_some {β : Type} {k : String} {l : List (String × β)} {v : β}
    (h : mapGet k l = some v) : (k, v) ∈ l := by
  induction l with
  | nil => simp [mapGet] at h
  | cons q rest ih =>
      by_cases hq : q.1 = k
      · simp only [mapGet, hq, if_pos, Option.some.injEq] at h
        have : q = (k, v) := Prod.ext hq h
        exact this ▸ List.mem_cons_self _ _
      · simp only [mapGet, hq, if_neg, not_false_iff] at h
        exact List.mem_cons_of_mem _ (ih h)

theorem mem_keys_mapSet {β : Type} {a k : String} {v : β} {l : List (String × β)}
    (h : a ∈ (mapSet k v l).map Prod.fst) : a = k ∨ a ∈ l.map Prod.fst := by
  rcases List.mem_map.mp h with ⟨p, hp, hpa⟩
  rcases mem_mapSet hp with h1 | h1
  · exact Or.inl (hpa ▸ h1 ▸ rfl)
  · exact Or.inr (hpa ▸ List.mem_map_of_mem Prod.fst h1)

theorem keysNodup_mapSet {β : Type} (k : String) (v : β) {l : List (String × β)}
    (h : (l.map Prod.fst).Nodup) : ((mapSet k v l).map Prod.fst).Nodup := by
  induction l with
  | nil => simp [mapSet]
  | cons q rest ih =>
      simp only [List.map_cons, List.nodup_cons] at h
      by_cases hq : q.1 = k
      · simp only [mapSet, hq, if_pos, List.map_cons, List.nodup_cons]
        exact ⟨hq ▸ h.1, h.2⟩
      · simp only [mapSet, hq, if_neg, not_false_iff, List.map_cons, List.nodup_cons]
        refine ⟨fun hmem => ?_, ih h.2⟩
        rcases mem_keys_mapSet hmem with h1 | h1
        · exact hq (h1 ▸ rfl)
        · exact h.1 h1

theorem add_keysNodup {reg : LocalHighlightRegistry} {store : GlobalStore} {name : String}
    {range : Nat} {priority : Int} {res : AddOk}
    (hnd : KeysNodup reg) (h : add reg store name range priority = .ok res) :
    KeysNodup res.reg := by
  rcases add_ok_cases h with ⟨_, rfl⟩ | ⟨_, _, set, _, h2, _⟩
  · exact hnd
  · unfold KeysNodup
    rw [h2]
    exact keysNodup_mapSet name _ hnd

theorem add_has_self {reg : LocalHighlightRegistry} {store : GlobalStore} {name : String}
    {range : Nat} {priority : Int} {res : AddOk}
    (h : add reg store name range priority = .ok res) (ht : res.result = true) :
    res.reg.has name range = true := by
  rcases add_ok_cases h with ⟨_, rfl⟩ | ⟨_, _, set, _, h2, _⟩
  · simp at ht
  · unfold has
    rw [h2, mapGet_mapSet_self]
    simp [mem_setAdd_self]

theorem add_of_has {reg : LocalHighlightRegistry} (store : GlobalStore) {name : String}
    {range : Nat} (priority : Int) (hh : reg.has name range = true) :
    add reg store name range priority = .ok ⟨false, reg, store, []⟩ := by
  unfold has at hh
  unfold add
  cases hg : mapGet name reg.ranges with
  | none => rw [hg] at hh; simp at hh
  | some set =>
      rw [hg] at hh
      simp only [decide_eq_true_eq] at hh
      simp [hh]

theorem delete_has_self {reg : LocalHighlightRegistry} (store : GlobalStore) (name : String)
    (range : Nat) (hnd : KeysNodup reg) :
    (delete reg store name range).reg.has name range = false := by
  unfold delete
  cases hg : mapGet name reg.ranges with
  | none => simp [has, hg]
  | some set =>
      by_cases hr : range ∈ set
      · simp only [hr, if_pos]
        have hdel : ∀ l : List (String × List Nat), l = (if (setDelete set range).length = 0
              then mapDelete name reg.ranges else mapSet name (setDelete set range) reg.ranges) →
            has ⟨l⟩ name range = false := by
          intro l hl
          by_cases hz : (setDelete set range).length = 0
          · rw [hl]
            simp only [hz, if_pos]
            unfold has
            rw [mapGet_mapDelete_self hnd]
          · rw [hl]
            simp only [hz, if_neg, not_false_iff]
            unfold has
            rw [mapGet_mapSet_self]
            simp [not_mem_setDelete_self]
        cases hm : mapGet name store with
        | none => exact hdel _ rfl
        | some gh =>
            by_cases hgr : range ∈ gh.ranges
            · simp only [hgr, if_pos]
              exact hdel _ rfl
            · simp only [hgr, if_neg, not_false_iff]
              exact hdel _ rfl
      · simp [hr, has, hg]

theorem delete_not_owned {reg : LocalHighlightRegistry} {store : GlobalStore} {name : String}
    {range : Nat} (hh : reg.has name range = false) :
    delete reg store name range = ⟨false, reg, store, []⟩ := by
  unfold has at hh
  unfold delete
  cases hg : mapGet name reg.ranges with
  | none => rfl
  | some set =>
      rw [hg] at hh
      simp only [decide_eq_true_eq, decide_eq_false_iff_not] at hh
      simp [hh]

theorem delete_owned (store : GlobalStore) {reg : LocalHighlightRegistry} {name : String}
    {range : Nat} {set : List Nat}
    (hg : mapGet name reg.ranges = some set) (hr : range ∈ set) :
    (delete reg store name range).result = true ∧
    (delete reg store name range).reg.ranges =
      (if (setDelete set range).length = 0 then mapDelete name reg.ranges
       else mapSet name (setDelete set range) reg.ranges) := by
  unfold delete
  rw [hg]
  simp only [hr, if_true]
  cases hm : mapGet name store with
  | none => exact ⟨rfl, rfl⟩
  | some gh =>
      by_cases hgr : range ∈ gh.ranges
      · simp only [hgr, if_true]
        exact ⟨trivial, trivial⟩
      · simp only [hgr, if_false]
        exact ⟨trivial, trivial⟩

theorem delete_inv {reg : LocalHighlightRegistry} (store : GlobalStore) (name : String)
    (range : Nat) (hinv : LedgerInv reg) : LedgerInv (delete reg store name range).reg := by
  cases hg : mapGet name reg.ranges with
  | none =>
      have h0 : delete reg store name range = ⟨false, reg, store, []⟩ :=
        delete_not_owned (by simp [has, hg])
      rw [h0]
      exact hinv
  | some set =>
      by_cases hr : range ∈ set
      · have h2 := (delete_owned store hg hr).2
        intro p hp
        rw [h2] at hp
        by_cases hz : (setDelete set range).length = 0
        · rw [if_pos hz] at hp
          exact ledgerInv_mapDelete hinv p hp
        · rw [if_neg hz] at hp
          refine ledgerInv_mapSet hinv (fun hnil => hz ?_) p hp
          rw [hnil]
          rfl
      · have h0 : delete reg store name range = ⟨false, reg, store, []⟩ :=
          delete_not_owned (by simp [has, hg, hr])
        rw [h0]
        exact hinv

end LocalHighlightRegistry

open LocalHighlightRegistry

/-- C1 (amended): every public operation preserves the ledger invariant
(name key present iff its span set is non-empty) on every normal
completion, and an erroring `add` preserves it whenever the instance
already had a ledger entry for the name; when `add` raises the
ownership-collision error for a name with no existing ledger entry, the
ledger is left mapping that name to the empty set, violating the
invariant (`has` is a pure read and cannot affect it). -/
theorem c1_ledger_invariant_preservation (reg : LocalHighlightRegistry) (store : GlobalStore)
    (name : String) (span : Nat) (priority : Int) (hinv : LedgerInv reg) :
    (∀ res, add reg store name span priority = .ok res → LedgerInv res.reg) ∧
    (∀ e, add reg store name span priority = .error e →
       (((mapGet name reg.ranges).isSome → LedgerInv e.reg) ∧
        (mapGet name reg.ranges = none →
           e.reg.ranges = mapSet name [] reg.ranges ∧ ¬ LedgerInv e.reg))) ∧
    LedgerInv (delete reg store name span).reg ∧
    LedgerInv (deleteAll reg store name).reg ∧
    LedgerInv (clear reg store).reg := by
  refine ⟨?_, ?_, delete_inv store name span hinv, deleteAll_inv store name hinv, ?_⟩
  · intro res h
    rcases add_ok_cases h with ⟨_, rfl⟩ | ⟨_, _, set, _, h2, _⟩
    · exact hinv
    · intro p hp
      rw [h2] at hp
      exact ledgerInv_mapSet hinv (setAdd_ne_nil set span) p hp
  · intro e h
    obtain ⟨_, _, hsome, hnone⟩ := add_error_cases h
    constructor
    · intro hs
      rw [hsome hs]
      exact hinv
    · intro hn
      refine ⟨hnone hn, ?_⟩
      intro hcontra
      have hmem : (name, ([] : List Nat)) ∈ e.reg.ranges := by
        rw [hnone hn, mapSet_append_of_none _ hn]
        exact List.mem_append_right _ (List.mem_singleton_self _)
      exact hcontra _ hmem rfl
  · unfold clear
    exact clearLoop_inv _ reg store [] hinv

/-- C1 witness: a concrete instantiation of the amended preservation
theorem, with the invariant hypothesis discharged on the empty registry. -/
theorem c1_ledger_invariant_preservation_witness :
    LedgerInv (⟨[]⟩ : LocalHighlightRegistry) ∧
    LedgerInv (delete (⟨[]⟩ : LocalHighlightRegistry) [] "x" 1).reg :=
  ⟨fun p hp => absurd hp (List.not_mem_nil p),
   (c1_ledger_invariant_preservation ⟨[]⟩ [] "x" 1 0
      (fun p hp => absurd hp (List.not_mem_nil p))).2.2.1⟩

/-- C1 counterexample: from the empty registry (which satisfies the
invariant), `add "x" 7` against a shared store whose collection for `"x"`
already contains span 7 raises the ownership-collision error, and the
resulting ledger maps `"x"` to the empty set — the invariant is violated,
refuting the claim that every call (normal or error) preserves it. -/
theorem c1_ledger_invariant_counterexample :
    LedgerInv (⟨[]⟩ : LocalHighlightRegistry) ∧
    add ⟨[]⟩ [("x", ⟨0, [7]⟩)] "x" 7 0 =
      .error ⟨addErrorMessage, ⟨[("x", [])]⟩, [("x", ⟨0, [7]⟩)]⟩ ∧
    ¬ LedgerInv ⟨[("x", [])]⟩ := by
  refine ⟨fun p hp => absurd hp (List.not_mem_nil p), by decide, ?_⟩
  intro h
  exact h ("x", []) (List.mem_singleton_self _) rfl

/-- C2 (code bug): the registry owns spans 1 and 2 under `"x"`, the shared
collection for `"x"` contains only span 2, so the removal of span 1 fails
to find its target — yet `deleteAll` emits no diagnostic, because the
`warn` accumulator is overwritten on each iteration and the last span's
removal succeeded. The claim (diagnostic iff at least one removal failed)
matches the warning's own "One or more ranges" text, so the code is the
bug. -/
theorem c2_deleteAll_diagnostic_last_wins :
    has ⟨[("x", [1, 2])]⟩ "x" 1 = true ∧
    storeHasSpan [("x", ⟨0, [2]⟩)] "x" 1 = false ∧
    (deleteAll ⟨[("x", [1, 2])]⟩ [("x", ⟨0, [2]⟩)] "x").warnings = [] :=
  ⟨by decide, by decide, by decide⟩

/-- C3: `add` raises the fatal error iff this instance does not already own
the span under the name and the shared store's collection for the name
already contains the span; every raised error is the ownership-collision
error (the other operations are total functions of the state and cannot
raise at all). -/
theorem c3_add_error_characterization (reg : LocalHighlightRegistry) (store : GlobalStore)
    (name : String) (span : Nat) (priority : Int) :
    ((∃ e, add reg store name span priority = .error e) ↔
       (reg.has name span = false ∧ storeHasSpan store name span = true)) ∧
    (∀ e, add reg store name span priority = .error e → e.message = addErrorMessage) :=
  ⟨add_error_iff reg store name span priority, fun _ h => (add_error_cases h).1⟩

/-- C4: two instances A and B over the same shared store, A owning span
`s1` and B owning a distinct span `s2` under the same name (each having
added its span to an initially empty store): each instance's `has` reflects
only its own ledger, and `B.deleteAll(name)` returns `true`, removes `s2`
from the shared collection while leaving `s1` in it; A's registry value is
not an input of B's `deleteAll`, so `A.has(name, s1)` is unchanged and
still `true`. -/
theorem c4_cross_instance_isolation (name : String) (s1 s2 : Nat) (p1 p2 : Int)
    (hne : s1 ≠ s2) (ra rb : AddOk)
    (ha : add ⟨[]⟩ [] name s1 p1 = .ok ra)
    (hb : add ⟨[]⟩ ra.store name s2 p2 = .ok rb) :
    ra.reg.has name s1 = true ∧ rb.reg.has name s2 = true ∧
    ra.reg.has name s2 = false ∧ rb.reg.has name s1 = false ∧
    (deleteAll rb.reg rb.store name).result = true ∧
    storeHasSpan (deleteAll rb.reg rb.store name).store name s2 = false ∧
    storeHasSpan (deleteAll rb.reg rb.store name).store name s1 = true := by
  have hne' : s2 ≠ s1 := Ne.symm hne
  have ha' : add ⟨[]⟩ [] name s1 p1 =
      .ok ⟨true, ⟨[(name, [s1])]⟩, [(name, ⟨p1, [s1]⟩)], []⟩ := by
    simp [add, addShared, mapGet, mapSet, setAdd]
  rw [ha] at ha'
  have hra : ra = ⟨true, ⟨[(name, [s1])]⟩, [(name, ⟨p1, [s1]⟩)], []⟩ := Except.ok.inj ha'
  subst hra
  have hb2 : add ⟨[]⟩ [(name, ⟨p1, [s1]⟩)] name s2 p2 = .ok rb := hb
  have hb' : add ⟨[]⟩ [(name, ⟨p1, [s1]⟩)] name s2 p2 =
      .ok ⟨true, ⟨[(name, [s2])]⟩, [(name, ⟨p1, [s1, s2]⟩)],
           if p1 ≠ p2 then [.priorityMismatch name p1 p2] else []⟩ := by
    simp [add, addShared, mapGet, mapSet, setAdd, hne']
  rw [hb2] at hb'
  have hrb : rb = ⟨true, ⟨[(name, [s2])]⟩, [(name, ⟨p1, [s1, s2]⟩)],
      if p1 ≠ p2 then [.priorityMismatch name p1 p2] else []⟩ := Except.ok.inj hb'
  subst hrb
  refine ⟨?_, ?_, ?_, ?_, ?_, ?_, ?_⟩ <;>
    simp [has, storeHasSpan, deleteAll, deleteAllLoop, mapGet, mapSet, mapDelete,
      setDelete, hne, hne']

/-- C4 witness: the core example at name `"x"`, spans 1 and 2, both
priorities 0, with the two `add` results computed concretely. -/
theorem c4_cross_instance_isolation_witness :
    (1 : Nat) ≠ 2 ∧
    storeHasSpan (deleteAll ⟨[("x", [2])]⟩ [("x", ⟨0, [1, 2]⟩)] "x").store "x" 1 = true :=
  ⟨by decide,
   (c4_cross_instance_isolation "x" 1 2 0 0 (by decide)
      ⟨true, ⟨[("x", [1])]⟩, [("x", ⟨0, [1]⟩)], []⟩
      ⟨true, ⟨[("x", [2])]⟩, [("x", ⟨0, [1, 2]⟩)], []⟩
      (by decide) (by decide)).2.2.2.2.2.2⟩

/-- C5: `deleteAll(name)` returns `false` iff this instance has no entries
under the name (no span is `has`-owned); in that case the whole result —
registry, store, diagnostics — is untouched; whenever it returns `true`,
the ledger afterwards has no key for the name, whatever the shared store
contained. -/
theorem c5_deleteAll_false_iff (reg : LocalHighlightRegistry) (store : GlobalStore)
    (name : String) (hinv : LedgerInv reg) (hnd : KeysNodup reg) :
    ((deleteAll reg store name).result = false ↔ ∀ span, reg.has name span = false) ∧
    ((deleteAll reg store name).result = false →
       deleteAll reg store name = ⟨false, reg, store, []⟩) ∧
    ((deleteAll reg store name).result = true →
       mapGet name (deleteAll reg store name).reg.ranges = none) := by
  have hres := deleteAll_result reg store name
  refine ⟨?_, ?_, ?_⟩
  · rw [hres]
    cases hg : mapGet name reg.ranges with
    | none =>
        simp only [Option.isSome_none]
        exact ⟨fun _ span => by simp [has, hg], fun _ => trivial⟩
    | some set =>
        simp only [Option.isSome_some]
        constructor
        · intro hcontra
          simp at hcontra
        · intro hall
          exfalso
          have hmem := mem_of_mapGet_some hg
          have hnil : set ≠ [] := hinv _ hmem
          obtain ⟨x, hx⟩ := List.exists_mem_of_ne_nil set hnil
          have h3 := hall x
          unfold has at h3
          rw [hg] at h3
          simp [hx] at h3
  · intro hf
    rw [hres] at hf
    cases hg : mapGet name reg.ranges with
    | none =>
        unfold deleteAll
        rw [hg]
    | some set =>
        rw [hg] at hf
        simp at hf
  · intro _
    rw [deleteAll_reg]
    exact mapGet_mapDelete_self hnd

/-- C5 witness: a registry owning span 1 under `"x"` over the empty store;
`deleteAll` returns `true` and afterwards the ledger has no key `"x"`. -/
theorem c5_deleteAll_false_iff_witness :
    LedgerInv (⟨[("x", [1])]⟩ : LocalHighlightRegistry) ∧
    KeysNodup (⟨[("x", [1])]⟩ : LocalHighlightRegistry) ∧
    mapGet "x" (deleteAll ⟨[("x", [1])]⟩ [] "x").reg.ranges = none :=
  ⟨by unfold LedgerInv; decide, by unfold KeysNodup; decide,
   (c5_deleteAll_false_iff ⟨[("x", [1])]⟩ [] "x" (by unfold LedgerInv; decide)
      (by unfold KeysNodup; decide)).2.2 (by decide)⟩

/-- C6: `clear` is by definition the fold of `deleteAll` over the snapshot
of the ledger's name list taken before starting; afterwards the local
ledger is empty and `has` returns `false` for every (name, span) pair. -/
theorem c6_clear_empties_ledger (reg : LocalHighlightRegistry) (store : GlobalStore)
    (hnd : KeysNodup reg) :
    clear reg store = clearLoop (reg.ranges.map Prod.fst) reg store [] ∧
    (clear reg store).reg.ranges = [] ∧
    ∀ name span, (clear reg store).reg.has name span = false := by
  have h1 : (clear reg store).reg.ranges = [] := by
    unfold clear
    exact clearLoop_reg_empty _ reg store [] hnd (fun p hp => List.mem_map_of_mem Prod.fst hp)
  refine ⟨rfl, h1, fun name span => ?_⟩
  unfold has
  rw [h1]
  simp [mapGet]

/-- C6 witness: a two-name registry is fully emptied by `clear`. -/
theorem c6_clear_empties_ledger_witness :
    KeysNodup (⟨[("x", [1]), ("y", [2])]⟩ : LocalHighlightRegistry) ∧
    (clear ⟨[("x", [1]), ("y", [2])]⟩ [("x", ⟨0, [1]⟩)]).reg.ranges = [] :=
  ⟨by unfold KeysNodup; decide,
   (c6_clear_empties_ledger ⟨[("x", [1]), ("y", [2])]⟩ [("x", ⟨0, [1]⟩)]
      (by unfold KeysNodup; decide)).2.1⟩

/-- C7: `delete` on an unowned (name, span) pair returns `false` and leaves
registry, store and diagnostics untouched; on an owned pair it returns
`true` unconditionally (whatever the shared store holds), removes the span
from the local set, pruning the name key when the set becomes empty, and
afterwards the span is no longer `has`-owned. -/
theorem c7_delete_characterization (reg : LocalHighlightRegistry) (store : GlobalStore)
    (name : String) (span : Nat) (hnd : KeysNodup reg) :
    (reg.has name span = false → delete reg store name span = ⟨false, reg, store, []⟩) ∧
    (∀ set, mapGet name reg.ranges = some set → span ∈ set →
       (delete reg store name span).result = true ∧
       (delete reg store name span).reg.ranges =
         (if (setDelete set span).length = 0 then mapDelete name reg.ranges
          else mapSet name (setDelete set span) reg.ranges) ∧
       (delete reg store name span).reg.has name span = false) :=
  ⟨fun hh => delete_not_owned hh,
   fun _ hg hr => ⟨(delete_owned store hg hr).1, (delete_owned store hg hr).2,
     delete_has_self store name span hnd⟩⟩

/-- C7 witness: both branches at concrete inputs — deleting an unowned
span is a no-op returning `false`; deleting the owned span 1 returns
`true`. -/
theorem c7_delete_characterization_witness :
    (⟨[("x", [1])]⟩ : LocalHighlightRegistry).has "x" 2 = false ∧
    delete ⟨[("x", [1])]⟩ [] "x" 2 = ⟨false, ⟨[("x", [1])]⟩, [], []⟩ ∧
    (delete ⟨[("x", [1])]⟩ [] "x" 1).result = true :=
  ⟨by decide,
   (c7_delete_characterization ⟨[("x", [1])]⟩ [] "x" 2
      (by unfold KeysNodup; decide)).1 (by decide),
   ((c7_delete_characterization ⟨[("x", [1])]⟩ [] "x" 1
      (by unfold KeysNodup; decide)).2 [1] (by decide) (by decide)).1⟩

/-- C8: immediately after an `add(name, span)` that returns `true`,
`has(name, span)` is `true`; immediately after a subsequent
`delete(name, span)` on the resulting state, `has(name, span)` is
`false`. -/
theorem c8_add_delete_has (reg : LocalHighlightRegistry) (store : GlobalStore)
    (name : String) (span : Nat) (priority : Int) (res : AddOk)
    (hnd : KeysNodup reg)
    (h : add reg store name span priority = .ok res) (ht : res.result = true) :
    res.reg.has name span = true ∧
    (delete res.reg res.store name span).reg.has name span = false :=
  ⟨add_has_self h ht, delete_has_self res.store name span (add_keysNodup hnd h)⟩

/-- C8 witness: adding span 5 under `"x"` to the empty registry and empty
store, then checking `has`. -/
theorem c8_add_delete_has_witness :
    KeysNodup (⟨[]⟩ : LocalHighlightRegistry) ∧
    add ⟨[]⟩ [] "x" 5 0 = .ok ⟨true, ⟨[("x", [5])]⟩, [("x", ⟨0, [5]⟩)], []⟩ ∧
    (⟨[("x", [5])]⟩ : LocalHighlightRegistry).has "x" 5 = true :=
  ⟨by unfold KeysNodup; decide, by decide,
   (c8_add_delete_has ⟨[]⟩ [] "x" 5 0 ⟨true, ⟨[("x", [5])]⟩, [("x", ⟨0, [5]⟩)], []⟩
      (by unfold KeysNodup; decide) (by decide) (by decide)).1⟩

/-- C9: when this instance does not yet own the span, a completing
`add(name, span)` returns `true`, the identical second `add` returns
`false` as a pure no-op (same registry, same store, no diagnostics), and
the span occurs exactly once in the ledger's set for the name. -/
theorem c9_add_twice (reg : LocalHighlightRegistry) (store : GlobalStore) (name : String)
    (span : Nat) (p1 p2 : Int) (res : AddOk)
    (hfresh : reg.has name span = false)
    (h : add reg store name span p1 = .ok res) :
    res.result = true ∧
    add res.reg res.store name span p2 = .ok ⟨false, res.reg, res.store, []⟩ ∧
    ∃ set, mapGet name res.reg.ranges = some set ∧ set.count span = 1 := by
  rcases add_ok_cases h with ⟨hh, _⟩ | ⟨_, ht, set, hnm, h2, _⟩
  · rw [hfresh] at hh
    exact absurd hh (by simp)
  · refine ⟨ht, ?_, ?_⟩
    · refine add_of_has res.store p2 ?_
      unfold has
      rw [h2, mapGet_mapSet_self]
      simp [mem_setAdd_self]
    · exact ⟨setAdd set span, by rw [h2, mapGet_mapSet_self],
        count_setAdd_of_not_mem hnm⟩

/-- C9 witness: adding span 5 under `"x"` twice from the empty state. -/
theorem c9_add_twice_witness :
    (⟨[]⟩ : LocalHighlightRegistry).has "x" 5 = false ∧
    add ⟨[]⟩ [] "x" 5 0 = .ok ⟨true, ⟨[("x", [5])]⟩, [("x", ⟨0, [5]⟩)], []⟩ ∧
    add ⟨[("x", [5])]⟩ [("x", ⟨0, [5]⟩)] "x" 5 1 =
      .ok ⟨false, ⟨[("x", [5])]⟩, [("x", ⟨0, [5]⟩)], []⟩ :=
  ⟨by decide, by decide,
   (c9_add_twice ⟨[]⟩ [] "x" 5 0 1 ⟨true, ⟨[("x", [5])]⟩, [("x", ⟨0, [5]⟩)], []⟩
      (by decide) (by decide)).2.1⟩

/-- C10: when `add` raises the ownership-collision error, the shared store
at the moment of the throw is exactly the input store — no collection was
created, no span inserted, no priority modified (the throw happens before
any shared-store mutation). -/
theorem c10_add_error_store_unchanged (reg : LocalHighlightRegistry) (store : GlobalStore)
    (name : String) (span : Nat) (priority : Int) (e : AddError)
    (h : add reg store name span priority = .error e) :
    e.store = store :=
  (add_error_cases h).2.1

/-- C10 witness: the erroring `add` of span 7 under `"x"` leaves the store
equal to the input store. -/
theorem c10_add_error_store_unchanged_witness :
    add ⟨[]⟩ [("x", ⟨0, [7]⟩)] "x" 7 0 =
      .error ⟨addErrorMessage, ⟨[("x", [])]⟩, [("x", ⟨0, [7]⟩)]⟩ ∧
    (⟨addErrorMessage, ⟨[("x", [])]⟩, [("x", ⟨0, [7]⟩)]⟩ : AddError).store =
      [("x", ⟨0, [7]⟩)] :=
  ⟨by decide,
   c10_add_error_store_unchanged ⟨[]⟩ [("x", ⟨0, [7]⟩)] "x" 7 0
     ⟨addErrorMessage, ⟨[("x", [])]⟩, [("x", ⟨0, [7]⟩)]⟩ (by decide)⟩
